import Mathlib

/-!
Verification of the fake-agent session emulator
(`backend/internal/agent/fake/fake_agent.py`).

The emulator reads requests line by line, emits one init record at startup,
and for each non-empty line (after stripping trailing newline characters)
emits two streaming text deltas, an assistant record and a result record,
cycling through a fixed list of canned responses.

Python strings are modelled as `List Char` (a Python `str` is a sequence of
code points).  Each emitted JSON line is modelled as one `Event`; JSON fields
that are process-wide constants (session_id, cwd, model, cost, duration, the
block index 0, and the type/subtype markers identifying each record shape)
are carried by the constructor identity rather than repeated as data.
-/

namespace FakeAgent

/-- The canned response list `JOKES` from the source (the sixth entry is the
adjacent-literal concatenation in the Python file). -/
def JOKES : List (List Char) :=
  [ ("Why do programmers prefer dark mode? Because light attracts bugs." : String).data,
    ("A SQL query walks into a bar, sees two tables, and asks: Can I JOIN you?" : String).data,
    ("Why do Java developers wear glasses? Because they can not C#." : String).data,
    ("How many programmers does it take to change a light bulb? None, that is a hardware problem." : String).data,
    ("There are only 10 types of people: those who understand binary and those who do not." : String).data,
    ("A programmer puts two glasses on his bedside table before going to sleep." ++
     " A full one, in case he gets thirsty, and an empty one, in case he does not." : String).data ]

/-- Python `line.rstrip("\n")`: remove every trailing newline character. -/
def pyRstripNL (s : List Char) : List Char :=
  (s.reverse.dropWhile (fun c => c = '\n')).reverse

/-- Scan a list whose head sits at original index `i`, returning the original
index of the first occurrence of `c`. -/
def findFromAux : List Char → Char → Nat → Option Nat
  | [], _, _ => none
  | a :: rest, c, i => if a = c then some i else findFromAux rest c (i + 1)

/-- Python `s.find(c, start)`: index of the first occurrence of `c` at
position `start` or later; `none` models Python's `-1`. -/
def pyFind (s : List Char) (c : Char) (start : Nat) : Option Nat :=
  findFromAux (s.drop start) c start

/-- The split of a response into the two streamed parts
(`mid = len(joke) // 2`; `sp = joke.find(" ", mid)`; `if sp == -1: sp = mid`;
`part1 = joke[: sp + 1]`; `part2 = joke[sp + 1 :]`). -/
def splitContent (joke : List Char) : List Char × List Char :=
  let mid := joke.length / 2
  let sp := match pyFind joke ' ' mid with
    | some i => i
    | none => mid
  (joke.take (sp + 1), joke.drop (sp + 1))

/-- One emitted NDJSON record. -/
inductive Event where
  /-- `{"type":"system","subtype":"init",...}` with the constant session
  fields. -/
  | init : Event
  /-- `{"type":"stream_event","event":{"type":"content_block_delta","index":0,
  "delta":{"type":"text_delta","text":text}}}`. -/
  | streamDelta (text : List Char) : Event
  /-- `{"type":"assistant","message":{"role":"assistant","content":
  [{"type":"text","text":text}]}}`. -/
  | assistant (text : List Char) : Event
  /-- `{"type":"result","subtype":"success","result":text,
  "num_turns":numTurns,...}`. -/
  | result (text : List Char) (numTurns : Nat) : Event
deriving DecidableEq, Repr

/-- The four records emitted for one processed request, in emission order
(the 50 ms sleep between the two deltas has no observable effect on the
trace). -/
def turnEvents (joke : List Char) (numTurns : Nat) : List Event :=
  [Event.streamDelta (splitContent joke).1,
   Event.streamDelta (splitContent joke).2,
   Event.assistant joke,
   Event.result joke numTurns]

/-- `JOKES[turns % len(JOKES)]`. -/
def jokeAt (turns : Nat) : List Char :=
  JOKES.getD (turns % JOKES.length) []

/-- The `for line in sys.stdin` loop body, with `turns` the counter value on
entry: skip lines that are empty after stripping trailing newlines, otherwise
pick the canned response, increment the counter and emit the four records. -/
def runLoop (turns : Nat) : List (List Char) → List Event
  | [] => []
  | line :: rest =>
    if pyRstripNL line = [] then runLoop turns rest
    else turnEvents (jokeAt turns) (turns + 1) ++ runLoop (turns + 1) rest

/-- `main`: one init record, then the loop starting from `turns = 0`.  The
argument is the list of stdin lines (each as delivered by line iteration,
normally ending in a newline character). -/
def main (lines : List (List Char)) : List Event :=
  Event.init :: runLoop 0 lines

/-- Number of input lines that are non-empty after newline stripping. -/
def countNE : List (List Char) → Nat
  | [] => 0
  | line :: rest => (if pyRstripNL line = [] then 0 else 1) + countNE rest

/-- The `num_turns` values of the result records of a trace, in order. -/
def resultTurns : List Event → List Nat
  | [] => []
  | Event.result _ n :: rest => n :: resultTurns rest
  | _ :: rest => resultTurns rest

/-- The `result` texts of the result records of a trace, in order. -/
def resultTexts : List Event → List (List Char)
  | [] => []
  | Event.result t _ :: rest => t :: resultTexts rest
  | _ :: rest => resultTexts rest

/-- The texts of the assistant records of a trace, in order. -/
def assistantTexts : List Event → List (List Char)
  | [] => []
  | Event.assistant t :: rest => t :: assistantTexts rest
  | _ :: rest => assistantTexts rest

/-- Number of init records in a trace. -/
def countInit : List Event → Nat
  | [] => 0
  | Event.init :: rest => 1 + countInit rest
  | _ :: rest => countInit rest

/-- `upFrom a n = [a, a+1, ..., a+n-1]`. -/
def upFrom : Nat → Nat → List Nat
  | _, 0 => []
  | a, n + 1 => a :: upFrom (a + 1) n

/-- `jokesFrom t n = [jokeAt t, jokeAt (t+1), ..., jokeAt (t+n-1)]`: the
responses served to `n` consecutive non-empty requests entered with counter
value `t`. -/
def jokesFrom : Nat → Nat → List (List Char)
  | _, 0 => []
  | t, n + 1 => jokeAt t :: jokesFrom (t + 1) n

/-- The full trace of `n` consecutive non-empty requests entered with counter
value `t`. -/
def allTurns : Nat → Nat → List Event
  | _, 0 => []
  | t, n + 1 => turnEvents (jokeAt t) (t + 1) ++ allTurns (t + 1) n

/-! ### Basic lemmas about the loop -/

lemma runLoop_cons_ne (t : Nat) (l : List Char) (rest : List (List Char))
    (h : pyRstripNL l ≠ []) :
    runLoop t (l :: rest) = turnEvents (jokeAt t) (t + 1) ++ runLoop (t + 1) rest := by
  simp [runLoop, h]

lemma runLoop_cons_eq (t : Nat) (l : List Char) (rest : List (List Char))
    (h : pyRstripNL l = []) :
    runLoop t (l :: rest) = runLoop t rest := by
  simp [runLoop, h]

lemma resultTurns_append (a b : List Event) :
    resultTurns (a ++ b) = resultTurns a ++ resultTurns b := by
  induction a with
  | nil => simp [resultTurns]
  | cons e rest ih => cases e <;> simp [resultTurns, ih]

lemma resultTexts_append (a b : List Event) :
    resultTexts (a ++ b) = resultTexts a ++ resultTexts b := by
  induction a with
  | nil => simp [resultTexts]
  | cons e rest ih => cases e <;> simp [resultTexts, ih]

lemma assistantTexts_append (a b : List Event) :
    assistantTexts (a ++ b) = assistantTexts a ++ assistantTexts b := by
  induction a with
  | nil => simp [assistantTexts]
  | cons e rest ih => cases e <;> simp [assistantTexts, ih]

lemma countInit_append (a b : List Event) :
    countInit (a ++ b) = countInit a + countInit b := by
  induction a with
  | nil => simp [countInit]
  | cons e rest ih => cases e <;> simp [countInit, ih, Nat.add_assoc]

lemma resultTurns_runLoop (lines : List (List Char)) :
    ∀ t, resultTurns (runLoop t lines) = upFrom (t + 1) (countNE lines) := by
  induction lines with
  | nil => intro t; simp [runLoop, resultTurns, countNE, upFrom]
  | cons l rest ih =>
    intro t
    by_cases h : pyRstripNL l = []
    · rw [runLoop_cons_eq t l rest h]; simp [countNE, h, ih]
    · rw [runLoop_cons_ne t l rest h, resultTurns_append]
      simp [countNE, h, upFrom, ih, turnEvents, resultTurns]
      rw [Nat.add_comm 1 (countNE rest)]
      simp [upFrom]

lemma resultTexts_runLoop (lines : List (List Char)) :
    ∀ t, resultTexts (runLoop t lines) = jokesFrom t (countNE lines) := by
  induction lines with
  | nil => intro t; simp [runLoop, resultTexts, countNE, jokesFrom]
  | cons l rest ih =>
    intro t
    by_cases h : pyRstripNL l = []
    · rw [runLoop_cons_eq t l rest h]; simp [countNE, h, ih]
    · rw [runLoop_cons_ne t l rest h, resultTexts_append]
      simp [countNE, h, jokesFrom, ih, turnEvents, resultTexts]
      rw [Nat.add_comm 1 (countNE rest)]
      simp [jokesFrom]

lemma assistantTexts_runLoop (lines : List (List Char)) :
    ∀ t, assistantTexts (runLoop t lines) = jokesFrom t (countNE lines) := by
  induction lines with
  | nil => intro t; simp [runLoop, assistantTexts, countNE, jokesFrom]
  | cons l rest ih =>
    intro t
    by_cases h : pyRstripNL l = []
    · rw [runLoop_cons_eq t l rest h]; simp [countNE, h, ih]
    · rw [runLoop_cons_ne t l rest h, assistantTexts_append]
      simp [countNE, h, jokesFrom, ih, turnEvents, assistantTexts]
      rw [Nat.add_comm 1 (countNE rest)]
      simp [jokesFrom]

lemma length_runLoop (lines : List (List Char)) :
    ∀ t, (runLoop t lines).length = 4 * countNE lines := by
  induction lines with
  | nil => intro t; simp [runLoop, countNE]
  | cons l rest ih =>
    intro t
    by_cases h : pyRstripNL l = []
    · rw [runLoop_cons_eq t l rest h]; simp [countNE, h, ih]
    · rw [runLoop_cons_ne t l rest h]
      simp [countNE, h, ih, turnEvents]
      omega

lemma countInit_runLoop (lines : List (List Char)) :
    ∀ t, countInit (runLoop t lines) = 0 := by
  induction lines with
  | nil => intro t; simp [runLoop, countInit]
  | cons l rest ih =>
    intro t
    by_cases h : pyRstripNL l = []
    · rw [runLoop_cons_eq t l rest h]; exact ih t
    · rw [runLoop_cons_ne t l rest h, countInit_append, ih]
      simp [turnEvents, countInit]

lemma runLoop_eq_allTurns (lines : List (List Char))
    (h : ∀ l ∈ lines, pyRstripNL l ≠ []) :
    ∀ t, runLoop t lines = allTurns t lines.length := by
  induction lines with
  | nil => intro t; simp [runLoop, allTurns]
  | cons l rest ih =>
    intro t
    rw [runLoop_cons_ne t l rest (h l (by simp))]
    simp only [List.length_cons, allTurns]
    rw [ih (fun x hx => h x (by simp [hx])) (t + 1)]

lemma countNE_eq_length (lines : List (List Char))
    (h : ∀ l ∈ lines, pyRstripNL l ≠ []) :
    countNE lines = lines.length := by
  induction lines with
  | nil => simp [countNE]
  | cons l rest ih =>
    simp only [countNE, List.length_cons]
    rw [if_neg (h l (by simp)), ih (fun x hx => h x (by simp [hx]))]
    omega

lemma runLoop_append (xs ys : List (List Char)) :
    ∀ t, runLoop t (xs ++ ys) = runLoop t xs ++ runLoop (t + countNE xs) ys := by
  induction xs with
  | nil => intro t; simp [runLoop, countNE]
  | cons l rest ih =>
    intro t
    by_cases h : pyRstripNL l = []
    · rw [List.cons_append, runLoop_cons_eq t l _ h, runLoop_cons_eq t l rest h, ih]
      simp [countNE, h]
    · rw [List.cons_append, runLoop_cons_ne t l _ h, runLoop_cons_ne t l rest h, ih]
      simp [countNE, h, List.append_assoc]
      have : t + 1 + countNE rest = t + (1 + countNE rest) := by omega
      rw [this]

lemma jokesFrom_get (n : Nat) :
    ∀ t k, k < n → (jokesFrom t n).get? k = some (jokeAt (t + k)) := by
  induction n with
  | zero => intro t k hk; omega
  | succ m ih =>
    intro t k hk
    cases k with
    | zero => simp [jokesFrom]
    | succ k' =>
      simp only [jokesFrom, List.get?_cons_succ]
      rw [ih (t + 1) k' (by omega)]
      have : t + 1 + k' = t + (k' + 1) := by omega
      rw [this]

/-! ### Characterization of `pyFind` and `splitContent` -/

lemma findFromAux_eq_none (c : Char) :
    ∀ (l : List Char) (i : Nat), (∀ k, k < l.length → l.get? k ≠ some c) →
      findFromAux l c i = none := by
  intro l
  induction l with
  | nil => intro i _; rfl
  | cons a rest ih =>
    intro i h
    have ha : ¬ a = c := by
      intro hac
      exact h 0 (by simp) (by simp [hac])
    simp only [findFromAux, if_neg ha]
    exact ih (i + 1) (fun k hk => h (k + 1) (by simpa using hk))

lemma findFromAux_eq_some (c : Char) :
    ∀ (l : List Char) (k i : Nat), l.get? k = some c →
      (∀ m, m < k → l.get? m ≠ some c) → findFromAux l c i = some (i + k) := by
  intro l
  induction l with
  | nil => intro k i hk _; simp at hk
  | cons a rest ih =>
    intro k i hk hmin
    cases k with
    | zero =>
      have : a = c := by simpa using hk
      simp [findFromAux, this]
    | succ k' =>
      have ha : ¬ a = c := by
        intro hac
        exact hmin 0 (by omega) (by simp [hac])
      simp only [findFromAux, if_neg ha]
      rw [ih k' (i + 1) (by simpa using hk)
        (fun m hm => by simpa using hmin (m + 1) (by omega))]
      congr 1
      omega

lemma findFromAux_some_le (c : Char) :
    ∀ (l : List Char) (k i : Nat), l.get? k = some c →
      ∃ m, m ≤ k ∧ l.get? m = some c ∧ findFromAux l c i = some (i + m) := by
  intro l
  induction l with
  | nil => intro k i hk; simp at hk
  | cons a rest ih =>
    intro k i hk
    by_cases ha : a = c
    · exact ⟨0, by omega, by simp [ha], by simp [findFromAux, ha]⟩
    · cases k with
      | zero =>
        exact absurd (by simpa using hk) ha
      | succ k' =>
        obtain ⟨m, hm1, hm2, hm3⟩ := ih k' (i + 1) (by simpa using hk)
        refine ⟨m + 1, by omega, by simpa using hm2, ?_⟩
        simp only [findFromAux, if_neg ha]
        rw [hm3]
        congr 1
        omega

lemma pyFind_eq_none (s : List Char) (c : Char) (start : Nat)
    (h : ∀ i, start ≤ i → i < s.length → s.get? i ≠ some c) :
    pyFind s c start = none := by
  apply findFromAux_eq_none
  intro k hk
  rw [List.get?_drop]
  exact h (start + k) (by omega) (by simp at hk; omega)

lemma pyFind_eq_some (s : List Char) (c : Char) (start sp : Nat)
    (h1 : start ≤ sp) (h2 : s.get? sp = some c)
    (h3 : ∀ i, start ≤ i → i < sp → s.get? i ≠ some c) :
    pyFind s c start = some sp := by
  have hk : (s.drop start).get? (sp - start) = some c := by
    rw [List.get?_drop]
    have : start + (sp - start) = sp := by omega
    rw [this]; exact h2
  have := findFromAux_eq_some c (s.drop start) (sp - start) start hk
    (fun m hm => by
      rw [List.get?_drop]
      exact h3 (start + m) (by omega) (by omega))
  rw [pyFind, this]
  congr 1
  omega

lemma pyFind_some_exists (s : List Char) (c : Char) (start sp : Nat)
    (h1 : start ≤ sp) (h2 : s.get? sp = some c) :
    ∃ j, start ≤ j ∧ j ≤ sp ∧ s.get? j = some c ∧ pyFind s c start = some j := by
  have hk : (s.drop start).get? (sp - start) = some c := by
    rw [List.get?_drop]
    have : start + (sp - start) = sp := by omega
    rw [this]; exact h2
  obtain ⟨m, hm1, hm2, hm3⟩ := findFromAux_some_le c (s.drop start) (sp - start) start hk
  refine ⟨start + m, by omega, by omega, ?_, hm3⟩
  rw [List.get?_drop] at hm2
  exact hm2

lemma splitContent_of_some (joke : List Char) (sp : Nat)
    (h : pyFind joke ' ' (joke.length / 2) = some sp) :
    splitContent joke = (joke.take (sp + 1), joke.drop (sp + 1)) := by
  simp [splitContent, h]

lemma splitContent_of_none (joke : List Char)
    (h : pyFind joke ' ' (joke.length / 2) = none) :
    splitContent joke = (joke.take (joke.length / 2 + 1), joke.drop (joke.length / 2 + 1)) := by
  simp [splitContent, h]

lemma runLoop_all_empty (lines : List (List Char))
    (h : ∀ x ∈ lines, pyRstripNL x = []) :
    ∀ t, runLoop t lines = [] := by
  induction lines with
  | nil => intro t; rfl
  | cons l rest ih =>
    intro t
    rw [runLoop_cons_eq t l rest (h l (by simp))]
    exact ih (fun x hx => h x (by simp [hx])) t

/-! ### The claims -/

/-- C1: every non-empty request line produces exactly four records, in the
fixed order delta, delta, assistant, result, so the full trace for all-non-empty
input is the init record followed by one `turnEvents` block per line; with
3 non-empty lines the output has 13 records and the result records carry
`num_turns` 1, 2, 3. -/
theorem C1_four_events_per_request (lines : List (List Char))
    (h : ∀ l ∈ lines, pyRstripNL l ≠ []) :
    main lines = Event.init :: allTurns 0 lines.length
    ∧ (∀ j t, turnEvents j t =
        [Event.streamDelta (splitContent j).1, Event.streamDelta (splitContent j).2,
         Event.assistant j, Event.result j t])
    ∧ (lines.length = 3 →
        (main lines).length = 13 ∧ resultTurns (main lines) = [1, 2, 3]) := by
  refine ⟨?_, fun j t => rfl, fun h3 => ⟨?_, ?_⟩⟩
  · simp only [main, runLoop_eq_allTurns lines h 0]
  · simp [main, length_runLoop, countNE_eq_length lines h, h3]
  · simp only [main, resultTurns, resultTurns_runLoop, countNE_eq_length lines h, h3]
    rfl

/-- C1 witness: three one-character lines. -/
theorem C1_witness :
    main [['a'], ['b'], ['c']] = Event.init :: allTurns 0 [['a'], ['b'], ['c']].length
    ∧ (∀ j t, turnEvents j t =
        [Event.streamDelta (splitContent j).1, Event.streamDelta (splitContent j).2,
         Event.assistant j, Event.result j t])
    ∧ ([['a'], ['b'], ['c']].length = 3 →
        (main [['a'], ['b'], ['c']]).length = 13
        ∧ resultTurns (main [['a'], ['b'], ['c']]) = [1, 2, 3]) :=
  C1_four_events_per_request [['a'], ['b'], ['c']] (by decide)

/-- C2: for every content string the two streamed parts concatenate back to
exactly the content, and those parts are what the two delta records of a turn
carry. -/
theorem C2_concat_deltas (joke : List Char) (t : Nat) :
    (splitContent joke).1 ++ (splitContent joke).2 = joke
    ∧ turnEvents joke t =
      [Event.streamDelta (splitContent joke).1, Event.streamDelta (splitContent joke).2,
       Event.assistant joke, Event.result joke t] := by
  refine ⟨?_, rfl⟩
  rcases hf : pyFind joke ' ' (joke.length / 2) with _ | sp
  · rw [splitContent_of_none joke hf]
    exact List.take_append_drop _ _
  · rw [splitContent_of_some joke sp hf]
    exact List.take_append_drop _ _

/-- C3: the k-th (0-indexed) processed request is answered with
`JOKES[k % len(JOKES)]`, both in the assistant record and in the result
record; in particular request number `len(JOKES)` repeats request 0's
content. -/
theorem C3_modular_selection (lines : List (List Char)) (k : Nat)
    (hk : k < countNE lines) :
    (resultTexts (main lines)).get? k = some (JOKES.getD (k % JOKES.length) [])
    ∧ (assistantTexts (main lines)).get? k = some (JOKES.getD (k % JOKES.length) [])
    ∧ (k = JOKES.length →
        (resultTexts (main lines)).get? k = (resultTexts (main lines)).get? 0) := by
  have hr : resultTexts (main lines) = jokesFrom 0 (countNE lines) := by
    simp [main, resultTexts, resultTexts_runLoop]
  have ha : assistantTexts (main lines) = jokesFrom 0 (countNE lines) := by
    simp [main, assistantTexts, assistantTexts_runLoop]
  have hget : ∀ m, m < countNE lines →
      (jokesFrom 0 (countNE lines)).get? m = some (jokeAt m) := by
    intro m hm
    rw [jokesFrom_get (countNE lines) 0 m hm]
    simp
  refine ⟨?_, ?_, ?_⟩
  · rw [hr, hget k hk]; rfl
  · rw [ha, hget k hk]; rfl
  · intro hkL
    rw [hr, hget k hk, hget 0 (by omega)]
    subst hkL
    rfl

/-- C3 witness: a single non-empty line, request 0. -/
theorem C3_witness :
    (resultTexts (main [['a']])).get? 0 = some (JOKES.getD (0 % JOKES.length) [])
    ∧ (assistantTexts (main [['a']])).get? 0 = some (JOKES.getD (0 % JOKES.length) [])
    ∧ (0 = JOKES.length →
        (resultTexts (main [['a']])).get? 0 = (resultTexts (main [['a']])).get? 0) :=
  C3_modular_selection [['a']] 0 (by decide)

/-- C4: the `num_turns` values of the result records are exactly
`1, 2, ..., countNE lines`: they start at 1, go up by exactly 1 per
non-empty line, never decrease, and empty lines contribute nothing. -/
theorem C4_num_turns (lines : List (List Char)) :
    resultTurns (main lines) = upFrom 1 (countNE lines) := by
  simp [main, resultTurns, resultTurns_runLoop]

/-- C5: the trace starts with the init record and contains exactly one init
record in total, whatever the input lines. -/
theorem C5_single_init (lines : List (List Char)) :
    (main lines).head? = some Event.init ∧ countInit (main lines) = 1 := by
  refine ⟨rfl, ?_⟩
  simp [main, countInit, countInit_runLoop]

/-- C6 counterexample: on content "ab" no space occurs at or after the
midpoint (offset 1), yet the code does not split at the midpoint as the claim
states — it yields ("ab", "") instead of ("a", "b"). -/
theorem C6_counterexample :
    pyFind ('a' :: 'b' :: []) ' ' (('a' :: 'b' :: []).length / 2) = none
    ∧ splitContent ('a' :: 'b' :: []) ≠
        (('a' :: 'b' :: []).take (('a' :: 'b' :: []).length / 2),
         ('a' :: 'b' :: []).drop (('a' :: 'b' :: []).length / 2))
    ∧ splitContent ('a' :: 'b' :: []) = ('a' :: 'b' :: [], []) := by decide

/-- C6 amended: the split point is the first space character (exactly `' '`,
not arbitrary whitespace) at or after the midpoint, and the first part
includes that space; when no space occurs at or after the midpoint, the first
part is the characters up to and including the midpoint offset and the second
part is the remainder from offset midpoint+1. -/
theorem C6_amended (joke : List Char) :
    ((∀ i, joke.length / 2 ≤ i → i < joke.length → joke.get? i ≠ some ' ') →
        splitContent joke =
          (joke.take (joke.length / 2 + 1), joke.drop (joke.length / 2 + 1)))
    ∧ (∀ sp, joke.length / 2 ≤ sp → joke.get? sp = some ' ' →
        (∀ i, joke.length / 2 ≤ i → i < sp → joke.get? i ≠ some ' ') →
        splitContent joke = (joke.take (sp + 1), joke.drop (sp + 1))) := by
  constructor
  · intro h
    exact splitContent_of_none joke (pyFind_eq_none joke ' ' (joke.length / 2) h)
  · intro sp h1 h2 h3
    exact splitContent_of_some joke sp (pyFind_eq_some joke ' ' (joke.length / 2) sp h1 h2 h3)

/-- C6 witness: "ab cd" splits after the space at offset 2. -/
theorem C6_witness :
    splitContent ('a' :: 'b' :: ' ' :: 'c' :: 'd' :: []) =
      (('a' :: 'b' :: ' ' :: 'c' :: 'd' :: []).take 3,
       ('a' :: 'b' :: ' ' :: 'c' :: 'd' :: []).drop 3) :=
  (C6_amended ('a' :: 'b' :: ' ' :: 'c' :: 'd' :: [])).2 2 (by decide) (by decide)
    (fun i h1 h2 => absurd (h1.trans_lt h2) (by decide))

/-- C7 counterexample: the content " a" is non-empty and has a space before
its midpoint (offset 0 < 1), yet the second delta text is empty. -/
theorem C7_counterexample :
    (' ' :: 'a' :: []) ≠ []
    ∧ 0 < (' ' :: 'a' :: []).length / 2
    ∧ (' ' :: 'a' :: []).get? 0 = some ' '
    ∧ (splitContent (' ' :: 'a' :: [])).2 = [] := by decide

/-- C7 amended: both delta texts are non-empty whenever the content has a
space character at or after the midpoint that is not its last character. -/
theorem C7_amended (joke : List Char) (sp : Nat)
    (h1 : joke.length / 2 ≤ sp) (h2 : sp + 1 < joke.length)
    (h3 : joke.get? sp = some ' ') :
    (splitContent joke).1 ≠ [] ∧ (splitContent joke).2 ≠ [] := by
  obtain ⟨j, hj1, hj2, hj3, hj4⟩ :=
    pyFind_some_exists joke ' ' (joke.length / 2) sp h1 h3
  rw [splitContent_of_some joke j hj4]
  constructor
  · apply List.ne_nil_of_length_pos
    rw [List.length_take]
    omega
  · rw [Ne, List.drop_eq_nil_iff]
    omega

/-- C7 witness: "a b" yields the non-empty deltas "a " and "b". -/
theorem C7_witness :
    (splitContent ('a' :: ' ' :: 'b' :: [])).1 ≠ []
    ∧ (splitContent ('a' :: ' ' :: 'b' :: [])).2 ≠ [] :=
  C7_amended ('a' :: ' ' :: 'b' :: []) 1 (by decide) (by decide) (by decide)

/-- C8: a line that is empty after stripping trailing newlines contributes
nothing to the trace and leaves the counter alone, and input made solely of
such lines yields just the init record. -/
theorem C8_empty_lines (pre post blanks : List (List Char)) (l : List Char)
    (h : pyRstripNL l = []) (hb : ∀ x ∈ blanks, pyRstripNL x = []) :
    main (pre ++ l :: post) = main (pre ++ post) ∧ main blanks = [Event.init] := by
  constructor
  · simp only [main]
    rw [runLoop_append, runLoop_append, runLoop_cons_eq _ l post h]
  · simp only [main]
    rw [runLoop_all_empty blanks hb 0]

/-- C8 witness: a blank line between and as the whole input. -/
theorem C8_witness :
    main ([['a', '\n']] ++ ['\n'] :: []) = main ([['a', '\n']] ++ [])
    ∧ main [['\n'], []] = [Event.init] :=
  C8_empty_lines [['a', '\n']] [] [['\n'], []] ['\n'] (by decide) (by decide)

/-- C9: the trace depends only on which lines are empty after stripping
trailing newlines, never on the lines' text: inputs that agree line by line
on the emptiness test produce identical traces. -/
theorem C9_noninterference (ls1 ls2 : List (List Char))
    (h : List.Forall₂ (fun a b => (pyRstripNL a = [] ↔ pyRstripNL b = [])) ls1 ls2) :
    main ls1 = main ls2 := by
  have key : ∀ t, runLoop t ls1 = runLoop t ls2 := by
    induction h with
    | nil => intro t; rfl
    | @cons a b as bs hab htail ih =>
      intro t
      by_cases he : pyRstripNL a = []
      · rw [runLoop_cons_eq t a as he, runLoop_cons_eq t b bs (hab.mp he), ih t]
      · have he2 : ¬ pyRstripNL b = [] := fun hb => he (hab.mpr hb)
        rw [runLoop_cons_ne t a as he, runLoop_cons_ne t b bs he2, ih (t + 1)]
  simp only [main, key 0]

/-- C9 witness: two different one-line inputs, both non-empty. -/
theorem C9_witness : main [['a']] = main [['b', 'c']] :=
  C9_noninterference [['a']] [['b', 'c']]
    (List.Forall₂.cons (by decide) List.Forall₂.nil)

/-- C10: emptiness is tested after stripping only trailing newline
characters, so a line of spaces or the carriage return left over from a CRLF
terminator counts as a non-empty request and produces a full four-record turn
that increments the counter. -/
theorem C10_whitespace_lines (t : Nat) (l : List Char) (rest : List (List Char))
    (h : pyRstripNL l ≠ []) :
    runLoop t (l :: rest) = turnEvents (jokeAt t) (t + 1) ++ runLoop (t + 1) rest
    ∧ pyRstripNL (' ' :: ' ' :: '\n' :: []) = (' ' :: ' ' :: [])
    ∧ pyRstripNL ('\r' :: '\n' :: []) = ('\r' :: [])
    ∧ main [(' ' :: ' ' :: '\n' :: [])] = Event.init :: turnEvents (jokeAt 0) 1
    ∧ main [('\r' :: '\n' :: [])] = Event.init :: turnEvents (jokeAt 0) 1 := by
  refine ⟨runLoop_cons_ne t l rest h, by decide, by decide, ?_, ?_⟩
  · simp only [main]
    rw [runLoop_cons_ne 0 _ [] (by decide)]
    simp [runLoop]
  · simp only [main]
    rw [runLoop_cons_ne 0 _ [] (by decide)]
    simp [runLoop]

/-- C10 witness: a one-character line. -/
theorem C10_witness :
    runLoop 0 (['x'] :: []) = turnEvents (jokeAt 0) (0 + 1) ++ runLoop (0 + 1) []
    ∧ pyRstripNL (' ' :: ' ' :: '\n' :: []) = (' ' :: ' ' :: [])
    ∧ pyRstripNL ('\r' :: '\n' :: []) = ('\r' :: [])
    ∧ main [(' ' :: ' ' :: '\n' :: [])] = Event.init :: turnEvents (jokeAt 0) 1
    ∧ main [('\r' :: '\n' :: [])] = Event.init :: turnEvents (jokeAt 0) 1 :=
  C10_whitespace_lines 0 ['x'] [] (by decide)

end FakeAgent
